import Mathlib

/-!
Verification of the photo-editing core: the adjustment pipeline
(`PhotoProcessor.processPhoto` / `exportPhoto`) and the batch scheduler
(`BatchProcessor`).  The TypeScript sources are embedded shallowly:

* numeric adjustment dials become `ℚ` (the source compares them only with
  `0` and scales them by rational constants, so `ℚ` is exact);
* the opaque sharp image backend becomes a free list of primitive
  operations (`ImgOp`); `processPhoto` is the function from an adjustment
  record to the list of backend operations it chains, in source order;
* filesystem and codec outcomes (existsSync / mkdirSync / toBuffer /
  toFile) are supplied as explicit environment values, since the source
  only branches on them;
* the scheduler's job registry (a JS `Map`) becomes an association list,
  and the in-place mutations of job objects become functional updates of
  the corresponding entry.

`Date` fields (createdDate/startedDate/completedDate) and console logging
are omitted: no claim depends on them.
-/

/-! ## Adjustment data model (src/shared/types.ts, `PhotoAdjustments`) -/

/-- One hue/saturation/luminance triple, as used by the color-grading and
HSL sub-records. -/
structure HSLColor where
  hue : ℚ
  saturation : ℚ
  luminance : ℚ
  deriving DecidableEq

/-- The tone-curve sub-record (`toneCurve` in `PhotoAdjustments`). -/
structure ToneCurve where
  highlights : ℚ
  lights : ℚ
  darks : ℚ
  shadows : ℚ
  parametricHighlights : ℚ
  parametricLights : ℚ
  parametricDarks : ℚ
  parametricShadows : ℚ
  deriving DecidableEq

/-- The color-grading sub-record.  `processPhoto` tests the `shadows`
field for truthiness before destructuring it, hence the `Option`. -/
structure ColorGrading where
  shadows : Option HSLColor
  midtones : Option HSLColor
  highlights : Option HSLColor
  globalSaturation : ℚ
  globalLuminance : ℚ
  balance : ℚ
  deriving DecidableEq

/-- One split-toning zone (hue + saturation). -/
structure SplitTone where
  hue : ℚ
  saturation : ℚ
  deriving DecidableEq

/-- The split-toning sub-record. -/
structure SplitToning where
  highlights : SplitTone
  shadows : SplitTone
  balance : ℚ
  deriving DecidableEq

/-- The lens-corrections sub-record. -/
structure LensCorrections where
  chromaticAberration : ℚ
  distortion : ℚ
  vignetting : ℚ
  fringing : ℚ
  deriving DecidableEq

/-- The per-hue-family HSL sub-record accessed by `applyHSLAdjustments`
(`hslAdjustments[color]` is tested for truthiness per color, hence the
`Option` per family). -/
structure HSLAdjustments where
  red : Option HSLColor
  orange : Option HSLColor
  yellow : Option HSLColor
  green : Option HSLColor
  aqua : Option HSLColor
  blue : Option HSLColor
  purple : Option HSLColor
  magenta : Option HSLColor
  deriving DecidableEq

/-- The full `PhotoAdjustments` record: required scalar dials plus the
optional structured extensions (the source reads the extensions through
`(adjustments as any)` casts; they are either present or absent).
`vignette?: number` is optional in the source type, hence `Option ℚ`. -/
structure PhotoAdjustments where
  exposure : ℚ
  contrast : ℚ
  highlights : ℚ
  shadows : ℚ
  whites : ℚ
  blacks : ℚ
  temperature : ℚ
  tint : ℚ
  vibrance : ℚ
  saturation : ℚ
  sharpening : ℚ
  noiseReduction : ℚ
  clarity : ℚ
  dehaze : ℚ
  vignette : Option ℚ
  toneCurve : Option ToneCurve
  colorGrading : Option ColorGrading
  hslAdjustments : Option HSLAdjustments
  splitToning : Option SplitToning
  lensCorrections : Option LensCorrections
  deriving DecidableEq

/-! ## The adjustment pipeline (PhotoProcessor.processPhoto)

The sharp backend is opaque: each primitive the pipeline may chain is a
constructor of `ImgOp`, and `processPhoto` returns the list of primitives
it applies, in source order.  An interpretation of the backend is any
function `ImgOp → Img → Img`; `applyOps` folds it over the list. -/

/-- One opaque backend primitive, with the rational parameters the source
passes to it.  `gammaPow2 e` stands for `gamma(2^e)` (the source computes
`Math.pow(2, exposure)`); storing the exponent keeps the embedding exact. -/
inductive ImgOp where
  | gammaPow2 (exponent : ℚ)
  | linear (a b : ℚ)
  | modulate (brightness saturation hue : Option ℚ)
  | sharpen (sigma m1 m2 : ℚ)
  | blur (sigma : ℚ)
  | median (size : ℤ)
  deriving DecidableEq

/-- `Math.round` on a nonnegative rational (round half up), as used for
the median-filter radius. -/
def jsRound (q : ℚ) : ℤ := ⌊q + 1/2⌋

/-- `applyToneCurve` (PhotoProcessor.ts lines 516-539): highlights as a
linear scale, shadows as a brightness modulate; lights/darks unused. -/
def applyToneCurve (tc : ToneCurve) : List ImgOp :=
  (if tc.highlights ≠ 0 then [ImgOp.linear (1 + tc.highlights / 200) 0] else [])
    ++ (if tc.shadows ≠ 0 then [ImgOp.modulate (some (1 + tc.shadows / 200)) none none] else [])

/-- `applyColorGrading` (lines 435-455): shadow zone only. -/
def applyColorGrading (cg : ColorGrading) : List ImgOp :=
  match cg.shadows with
  | some c =>
    if c.hue ≠ 0 ∨ c.saturation ≠ 0 ∨ c.luminance ≠ 0 then
      [ImgOp.modulate (some (1 + c.luminance / 100)) (some (1 + c.saturation / 100))
        (some (c.hue * (1/10)))]
    else []
  | none => []

/-- One hue family of `applyHSLAdjustments` (lines 487-513). -/
def applyHSLColor (c : Option HSLColor) : List ImgOp :=
  match c with
  | some c =>
    if c.hue ≠ 0 ∨ c.saturation ≠ 0 ∨ c.luminance ≠ 0 then
      [ImgOp.modulate (some (1 + c.luminance / 100)) (some (1 + c.saturation / 100))
        (some (c.hue * (1/10)))]
    else []
  | none => []

/-- `applyHSLAdjustments`: iterates the 8 hue families in source order. -/
def applyHSLAdjustments (h : HSLAdjustments) : List ImgOp :=
  applyHSLColor h.red ++ applyHSLColor h.orange ++ applyHSLColor h.yellow
    ++ applyHSLColor h.green ++ applyHSLColor h.aqua ++ applyHSLColor h.blue
    ++ applyHSLColor h.purple ++ applyHSLColor h.magenta

/-- `applyVignette` (lines 385-405).  `dimsKnown` is whether
`metadata.width`/`metadata.height` are available; the source returns the
image unchanged when they are not. -/
def applyVignette (dimsKnown : Bool) (v : ℚ) : List ImgOp :=
  if dimsKnown = false then []
  else
    [ImgOp.modulate
      (some (if 0 < v then 1 - (|v| / 100) * (4/10) else 1 + (|v| / 100) * (3/10)))
      none none]

/-- `applyDehaze` (lines 407-432). -/
def applyDehaze (d : ℚ) : List ImgOp :=
  let s := d / 100
  if 0 < d then
    [ImgOp.modulate (some (1 + s * (1/10))) (some (1 + s * (2/10))) none,
     ImgOp.linear (1 + s * (3/10)) 0]
  else
    [ImgOp.modulate (some (1 - |s| * (1/10))) (some (1 - |s| * (3/10))) none,
     ImgOp.linear (1 - |s| * (2/10)) (|s| * 20)]

/-- `applyLensCorrections` (lines 458-484): chromatic aberration and
distortion only log (no pixel effect); vignetting re-invokes the vignette
stage with the sign inverted. -/
def applyLensCorrections (dimsKnown : Bool) (lc : LensCorrections) : List ImgOp :=
  if lc.vignetting ≠ 0 then applyVignette dimsKnown (-lc.vignetting) else []

/-- `applySplitToning` (lines 542-561). -/
def applySplitToning (st : SplitToning) : List ImgOp :=
  if st.highlights.hue ≠ 0 ∨ st.shadows.hue ≠ 0 then
    [ImgOp.modulate none none (some ((st.highlights.hue + st.shadows.hue) * (5/100)))]
  else []

/-- `PhotoProcessor.processPhoto` (lines 43-168): the chain of backend
primitives applied for a given adjustment record, in source order.  Each
stage is guarded exactly as in the source (`!== 0` tests, truthiness of
the optional extensions, `> 0` for sharpening/noise). -/
def processPhoto (dimsKnown : Bool) (a : PhotoAdjustments) : List ImgOp :=
  (if a.exposure ≠ 0 then [ImgOp.gammaPow2 a.exposure] else [])
    ++ (if a.contrast ≠ 0 then [ImgOp.linear (1 + a.contrast / 100) 0] else [])
    ++ (if a.highlights ≠ 0 ∨ a.shadows ≠ 0 then
          [ImgOp.modulate (some (1 + (a.shadows - a.highlights) / 200)) none none] else [])
    ++ (if a.whites ≠ 0 ∨ a.blacks ≠ 0 then
          [ImgOp.linear (1 + (a.whites / 100) * (1/2)) ((a.blacks / 100) * 10)] else [])
    ++ (if a.saturation ≠ 0 ∨ a.vibrance ≠ 0 then
          [ImgOp.modulate none (some (1 + (a.saturation + a.vibrance) / 200)) none] else [])
    ++ (if a.temperature ≠ 0 ∨ a.tint ≠ 0 then
          [ImgOp.modulate none none
            (some (((a.temperature / 1000) * (1/2) + (a.tint / 1000) * (3/10)) * 180))] else [])
    ++ (match a.toneCurve with | some tc => applyToneCurve tc | none => [])
    ++ (match a.colorGrading with | some cg => applyColorGrading cg | none => [])
    ++ (match a.hslAdjustments with | some h => applyHSLAdjustments h | none => [])
    ++ (if 0 < a.sharpening then [ImgOp.sharpen 1 1 (a.sharpening / 100)] else [])
    ++ (if 0 < a.noiseReduction then
          (let s := a.noiseReduction / 100
           if (1/2 : ℚ) < s then [ImgOp.median (max 1 (jsRound (s * 3)))]
           else [ImgOp.blur (s * 2)])
        else [])
    ++ (if a.clarity ≠ 0 then
          (if 0 < a.clarity then [ImgOp.sharpen 3 1 (|a.clarity| / 100)]
           else [ImgOp.blur ((|a.clarity| / 100) * (1/2))])
        else [])
    ++ (match a.vignette with
        | some v => if v ≠ 0 then applyVignette dimsKnown v else []
        | none => [])
    ++ (if a.dehaze ≠ 0 then applyDehaze a.dehaze else [])
    ++ (match a.lensCorrections with
        | some lc => applyLensCorrections dimsKnown lc | none => [])
    ++ (match a.splitToning with | some st => applySplitToning st | none => [])

/-- Folding an arbitrary backend interpretation over the pipeline's
operation list.  `applyOps interp (processPhoto dims a) img` is the pixel
result of `processPhoto` under backend `interp` on decoded image `img`. -/
def applyOps {Img : Type} (interp : ImgOp → Img → Img) (ops : List ImgOp) (img : Img) : Img :=
  ops.foldl (fun i op => interp op i) img

/-- The identity AdjustmentSet: every required scalar 0, no optional
extensions. -/
def identityAdjustments : PhotoAdjustments :=
  { exposure := 0, contrast := 0, highlights := 0, shadows := 0, whites := 0,
    blacks := 0, temperature := 0, tint := 0, vibrance := 0, saturation := 0,
    sharpening := 0, noiseReduction := 0, clarity := 0, dehaze := 0,
    vignette := none, toneCurve := none, colorGrading := none,
    hslAdjustments := none, splitToning := none, lensCorrections := none }

theorem processPhoto_identity_nil (dims : Bool) :
    processPhoto dims identityAdjustments = [] := by
  cases dims <;> decide

/-- Claim C4: applying the pipeline with the identity AdjustmentSet
(every required scalar 0, no optional extensions) leaves the pixel values
unchanged — every stage's skip guard fires, so the pipeline chains no
backend operation at all, and under any backend interpretation the output
image equals the source image (only the final re-encode remains). -/
theorem claim4_identity :
    ∀ (dims : Bool), processPhoto dims identityAdjustments = []
      ∧ ∀ {Img : Type} (interp : ImgOp → Img → Img) (img : Img),
          applyOps interp (processPhoto dims identityAdjustments) img = img := by
  intro dims
  refine ⟨processPhoto_identity_nil dims, ?_⟩
  intro Img interp img
  rw [processPhoto_identity_nil]
  rfl

/-! ## Export options and output-filename generation -/

/-- `ExportOptions.fileNaming`.  The source field `prefix` is a reserved
word in Lean and is embedded as `prefixStr`. -/
structure FileNaming where
  prefixStr : Option String
  suffix : Option String
  includeIndex : Option Bool
  deriving DecidableEq

/-- `ExportOptions` (src/shared/types.ts): the fields the embedded code
reads.  `colorSpace`/`resolution`/`fit` are carried nowhere in the
embedded functions and are omitted. -/
structure ExportOptions where
  format : String
  quality : Option ℕ
  width : Option ℕ
  height : Option ℕ
  overwrite : Option Bool
  fileNaming : Option FileNaming
  deriving DecidableEq

/-- `path.basename`: the part of a path after the last slash. -/
def basename (p : String) : String :=
  String.mk (((p.data.reverse).takeWhile (fun c => c ≠ '/')).reverse)

/-- The `name`/`ext` fields of Node's `path.parse`: `ext` is the suffix
from the last dot of the basename (empty when there is no dot or when the
only dot is the leading character of the basename). -/
def parseNameExt (p : String) : String × String :=
  let base := basename p
  let cs := base.data
  let extLen := ((cs.reverse).takeWhile (fun c => c ≠ '.')).length
  if extLen = cs.length then (base, String.mk [])
  else if extLen + 1 = cs.length then (base, String.mk [])
  else (String.mk (cs.take (cs.length - extLen - 1)),
        String.mk (cs.drop (cs.length - extLen - 1)))

/-- `String.padStart(3, '0')` for the 1-based file index. -/
def pad3 (s : String) : String :=
  String.mk (List.replicate (3 - s.length) '0') ++ s

/-- A batch job's status ( `'pending' | 'processing' | 'completed' |
'failed'` ). -/
inductive JobStatus where
  | pending
  | processing
  | completed
  | failed
  deriving DecidableEq

/-- `BatchJob` (BatchProcessor interface).  The three `Date` fields are
omitted; `progress` is the rounded percentage as a natural number. -/
structure BatchJob where
  id : String
  name : String
  inputFiles : List String
  outputDirectory : String
  adjustments : PhotoAdjustments
  exportOptions : ExportOptions
  status : JobStatus
  progress : ℕ
  errors : List String
  processedFiles : ℕ
  totalFiles : ℕ
  deriving DecidableEq

/-- `BatchProcessor.generateOutputFilename` (lines 197-223): extension
mapped from the export format (exact string comparison), optional prefix
and suffix (JS truthiness: an empty string is skipped), optional 1-based
zero-padded 3-digit index. -/
def generateOutputFilename (inputFile : String) (job : BatchJob) (index : ℕ) : String :=
  let parsed := parseNameExt inputFile
  let extension :=
    if job.exportOptions.format = "jpeg" then ".jpg"
    else if job.exportOptions.format = "png" then ".png"
    else if job.exportOptions.format = "tiff" then ".tiff"
    else parsed.2
  let fn := job.exportOptions.fileNaming
  let withPre :=
    match fn.bind (fun x => x.prefixStr) with
    | some p => if p = "" then parsed.1 else p ++ parsed.1
    | none => parsed.1
  let withSuf :=
    match fn.bind (fun x => x.suffix) with
    | some suf => if suf = "" then withPre else withPre ++ suf
    | none => withPre
  let withIdx :=
    if (fn.bind (fun x => x.includeIndex)).getD false then
      withSuf ++ "_" ++ pad3 (toString (index + 1))
    else withSuf
  withIdx ++ extension

/-! ## The export encoder (PhotoProcessor.exportPhoto)

`exportPhoto` never throws: its whole body is a try/catch that returns
`false` on any failure (including an unsupported format and a failed
write).  The codec outcome of `toFile` is environment input `writeOk`;
the outcome of the inner `processPhoto` call (only reached when an
adjustments argument is passed) is environment input `adjResult`. -/

/-- `toLowerCase`, written on the character list so that it evaluates
inside the kernel. -/
def strToLower (s : String) : String := String.mk (s.data.map Char.toLower)

/-- The formats accepted by `exportPhoto`'s switch (after `toLowerCase`);
any other format throws `Unsupported export format`, which the catch
turns into `false`. -/
def formatSupported (f : String) : Bool :=
  let l := strToLower f
  l == "jpeg" || l == "jpg" || l == "png" || l == "webp" || l == "tiff" || l == "tif"

/-- `PhotoProcessor.exportPhoto` (lines 170-240): returns `true` exactly
when the optional adjustment pipeline run, the format switch, and the
final write all succeed; every failure is caught and returned as
`false`. -/
def exportPhoto (options : ExportOptions) (adjustments : Option PhotoAdjustments)
    (adjResult : Except String Unit) (writeOk : Bool) : Bool :=
  match adjustments with
  | some _ =>
    match adjResult with
    | Except.error _ => false
    | Except.ok _ => if formatSupported options.format then writeOk else false
  | none => if formatSupported options.format then writeOk else false

/-! ## Per-file processing inside a batch job -/

deriving instance DecidableEq for Except

/-- The environment of one `processFile` call: the filesystem and codec
outcomes the source branches on.  `pipelineResult` is the outcome of the
`processPhoto` call on this file (`Except.error m` = the pipeline threw
with message `m`); `writeOk` is the outcome of the final `toFile` write
inside `exportPhoto`. -/
structure FileEnv where
  inputExists : Bool
  outputExists : Bool
  pipelineResult : Except String Unit
  writeOk : Bool
  deriving DecidableEq

def msgInputMissing : String := "Input file does not exist"

def msgOutputExists : String := "Output file exists and overwrite is disabled"

/-- `BatchProcessor.processFile` (lines 172-194).  Faithful to the
source: the processed buffer returned by `processPhoto` is discarded, and
`exportPhoto` is called on the original input *without* the adjustments
and with its boolean result ignored — so a failed export does not make
`processFile` throw. -/
def processFile (job : BatchJob) (inputFile : String) (index : ℕ) (env : FileEnv) :
    Except String Unit :=
  if env.inputExists = false then Except.error msgInputMissing
  else
    let _outputFilename := generateOutputFilename inputFile job index
    if env.outputExists = true ∧ job.exportOptions.overwrite.getD false = false then
      Except.error msgOutputExists
    else
      match env.pipelineResult with
      | Except.error m => Except.error m
      | Except.ok _ =>
        let _success := exportPhoto job.exportOptions none (Except.ok ()) env.writeOk
        Except.ok ()

/-- `error?.message || 'Unknown error'`. -/
def orUnknown (m : String) : String := if m = "" then "Unknown error" else m

/-- The error-list entry recorded when `processFile` throws (processJob
line 145). -/
def mkFileError (f m : String) : String :=
  "Failed to process " ++ basename f ++ ": " ++ orUnknown m

/-- `Math.round(((i + 1) / totalFiles) * 100)` on naturals. -/
def jsRound100 (k total : ℕ) : ℕ := (200 * k + total) / (2 * total)

/-- The per-file loop of `BatchProcessor.processJob` (lines 138-152):
each file is attempted in order; a success increments `processedFiles`, a
thrown error is appended to `errors`; progress is recomputed after each
file.  `env i` is the environment of the file at index `i`. -/
def runFilesAux (env : ℕ → FileEnv) : List String → ℕ → BatchJob → BatchJob
  | [], _, job => job
  | f :: rest, i, job =>
    let job1 :=
      match processFile job f i (env i) with
      | Except.ok _ => { job with processedFiles := job.processedFiles + 1 }
      | Except.error m => { job with errors := job.errors ++ [mkFileError f m] }
    runFilesAux env rest (i + 1) { job1 with progress := jsRound100 (i + 1) job.totalFiles }

/-- The head of `processJob` (lines 129-133): status `processing`,
progress/processed/errors reset. -/
def startJob (job : BatchJob) : BatchJob :=
  { job with status := JobStatus.processing, progress := 0,
             processedFiles := 0, errors := [] }

/-- The tail of `processJob` (lines 138-157): run every file, then mark
the job `completed` when the error list is empty and `failed` otherwise,
forcing progress to 100.  (The outer catch of `processJob` is
unreachable: every per-file exception is already caught by the inner
per-file catch.) -/
def finishJob (job : BatchJob) (env : ℕ → FileEnv) : BatchJob :=
  let j := runFilesAux env job.inputFiles 0 job
  { j with
      status := if j.errors.length = 0 then JobStatus.completed else JobStatus.failed,
      progress := 100 }

/-- `BatchProcessor.processJob` (lines 128-169), as a function of the
per-file environments. -/
def processJob (job : BatchJob) (env : ℕ → FileEnv) : BatchJob :=
  finishJob (startJob job) env

/-! ## The batch scheduler (BatchProcessor)

The `activeJobs` Map is an association list `jobs` (JS Map semantics:
unique keys, `set` replaces in place or appends); `jobQueue` is the FIFO
admission queue; `maxConcurrentJobs` the concurrency cap.  The
`isProcessing` re-entrancy flag of `processQueue` needs no counterpart:
JS runs the admission loop without interleaving, which the step relation
below reflects by making each admission one atomic step. -/

structure SchedState where
  jobs : List (String × BatchJob)
  jobQueue : List String
  maxConcurrentJobs : ℕ
  deriving DecidableEq

/-- `this.activeJobs.get(jobId)`. -/
def lookupJob (s : SchedState) (jobId : String) : Option BatchJob :=
  s.jobs.lookup jobId

/-- Replace the registry entry of `jobId` (the functional image of the
source's in-place mutation of the job object held by the Map). -/
def updateJob (jobs : List (String × BatchJob)) (jobId : String) (j : BatchJob) :
    List (String × BatchJob) :=
  jobs.map (fun p => if p.1 = jobId then (jobId, j) else p)

/-- `this.activeJobs.set(jobId, job)`: replace when present, else append
(JS Map insertion order). -/
def addJob (jobs : List (String × BatchJob)) (jobId : String) (j : BatchJob) :
    List (String × BatchJob) :=
  if (jobs.lookup jobId).isSome then updateJob jobs jobId j else jobs ++ [(jobId, j)]

/-- The number of jobs currently in status `processing` (the
`activeBatches` count of `processQueue`). -/
def processingCount (jobs : List (String × BatchJob)) : ℕ :=
  (jobs.filter (fun p => decide (p.2.status = JobStatus.processing))).length

/-- `BatchProcessor.createBatchJob` (lines 46-70).  The fresh id
(`batch-<timestamp>-<random>` in the source) is environment input
`newId`.  `[...inputFiles]`, `{...adjustments}` and `{...exportOptions}`
are value snapshots here; the reference-level (shallow-copy) semantics of
the two object spreads is modelled separately for the aliasing claim. -/
def createBatchJob (s : SchedState) (newId : String) (name : String)
    (inputFiles : List String) (outputDirectory : String)
    (adjustments : PhotoAdjustments) (exportOptions : ExportOptions) :
    BatchJob × SchedState :=
  let job : BatchJob :=
    { id := newId, name := name, inputFiles := inputFiles,
      outputDirectory := outputDirectory, adjustments := adjustments,
      exportOptions := exportOptions, status := JobStatus.pending,
      progress := 0, errors := [], processedFiles := 0,
      totalFiles := inputFiles.length }
  (job, { s with jobs := addJob s.jobs newId job })

def dirFailMsg (m : String) : String :=
  "Failed to create output directory: " ++ orUnknown m

/-- The failed job produced when `queueJob` cannot create the output
directory (lines 90-91). -/
def dirFailJob (job : BatchJob) (m : String) : BatchJob :=
  { job with status := JobStatus.failed, errors := job.errors ++ [dirFailMsg m] }

/-- `BatchProcessor.queueJob` (lines 73-99).  `dirExists` is the
`fs.existsSync(outputDirectory)` outcome; `mkdirResult` the `mkdirSync`
outcome (`none` = created, `some m` = threw with message `m`).  The
`processQueue()` call on success is modelled by subsequent `admit` steps
of the scheduler step relation (admission is asynchronous with respect to
this function's return). -/
def queueJob (s : SchedState) (jobId : String) (dirExists : Bool)
    (mkdirResult : Option String) : Bool × SchedState :=
  match lookupJob s jobId with
  | none => (false, s)
  | some job =>
    if job.status ≠ JobStatus.pending then (false, s)
    else
      if dirExists = false then
        match mkdirResult with
        | some m => (false, { s with jobs := updateJob s.jobs jobId (dirFailJob job m) })
        | none => (true, { s with jobQueue := s.jobQueue ++ [jobId] })
      else (true, { s with jobQueue := s.jobQueue ++ [jobId] })

def cancelMsg : String := "Job cancelled by user"

/-- The failed job produced by cancelling a pending job (lines 254-255). -/
def cancelledJob (job : BatchJob) : BatchJob :=
  { job with status := JobStatus.failed, errors := job.errors ++ [cancelMsg] }

/-- `BatchProcessor.cancelJob` (lines 244-262): only a `pending` job can
be cancelled; it is removed from the queue (indexOf + splice = erase the
first occurrence) and marked failed with a cancellation error; any other
status (or a missing id) returns `false` and changes nothing. -/
def cancelJob (s : SchedState) (jobId : String) : Bool × SchedState :=
  match lookupJob s jobId with
  | none => (false, s)
  | some job =>
    if job.status = JobStatus.pending then
      (true, { s with jobQueue := s.jobQueue.erase jobId,
                      jobs := updateJob s.jobs jobId (cancelledJob job) })
    else (false, s)

/-- `BatchProcessor.deleteJob` (lines 265-276): only terminal jobs can be
deleted. -/
def deleteJob (s : SchedState) (jobId : String) : Bool × SchedState :=
  match lookupJob s jobId with
  | none => (false, s)
  | some job =>
    if job.status = JobStatus.processing ∨ job.status = JobStatus.pending then (false, s)
    else (true, { s with jobs := s.jobs.filter (fun p => p.1 != jobId) })

/-- `BatchProcessor.setMaxConcurrentJobs` (lines 348-350): clamp to
[1, 10]. -/
def setMaxConcurrentJobs (s : SchedState) (n : ℕ) : SchedState :=
  { s with maxConcurrentJobs := max 1 (min n 10) }

/-- A fresh `BatchProcessor`: empty registry, empty queue, default cap 3. -/
def initState : SchedState :=
  { jobs := [], jobQueue := [], maxConcurrentJobs := 3 }

/-! ## The scheduler step relation

One constructor per externally reachable mutation.  `admit` is one
iteration of the `processQueue` while-loop (lines 113-121): it requires
the FIFO head and the guard `processingCount < maxConcurrentJobs`, and
starts the popped job (which sets its status to `processing`
synchronously at the head of `processJob`).  `admitDrop` is the loop
iteration that pops a stale id (job missing or no longer pending) without
starting anything.  `finish` is the asynchronous completion of a running
job's file loop.  The positional `pre ++ (jid, job) :: post` form mirrors
in-place mutation of the single Map entry holding that job. -/

inductive SchedStepNC : SchedState → SchedState → Prop
  | create (s : SchedState) (newId name : String) (files : List String)
      (outDir : String) (adj : PhotoAdjustments) (eo : ExportOptions) :
      SchedStepNC s (createBatchJob s newId name files outDir adj eo).2
  | queue (s : SchedState) (jid : String) (dirExists : Bool) (mk : Option String) :
      SchedStepNC s (queueJob s jid dirExists mk).2
  | admitOne (s : SchedState) (pre post : List (String × BatchJob)) (jid : String)
      (job : BatchJob) (rest : List String)
      (hq : s.jobQueue = jid :: rest)
      (hj : s.jobs = pre ++ (jid, job) :: post)
      (hp : job.status = JobStatus.pending)
      (hc : processingCount s.jobs < s.maxConcurrentJobs) :
      SchedStepNC s { s with jobQueue := rest, jobs := pre ++ (jid, startJob job) :: post }
  | admitDrop (s : SchedState) (jid : String) (rest : List String)
      (hq : s.jobQueue = jid :: rest)
      (hc : processingCount s.jobs < s.maxConcurrentJobs)
      (hnp : ∀ j, lookupJob s jid = some j → j.status ≠ JobStatus.pending) :
      SchedStepNC s { s with jobQueue := rest }
  | finish (s : SchedState) (pre post : List (String × BatchJob)) (jid : String)
      (job : BatchJob) (env : ℕ → FileEnv)
      (hj : s.jobs = pre ++ (jid, job) :: post)
      (hp : job.status = JobStatus.processing) :
      SchedStepNC s { s with jobs := pre ++ (jid, finishJob job env) :: post }
  | cancel (s : SchedState) (jid : String) :
      SchedStepNC s (cancelJob s jid).2
  | del (s : SchedState) (jid : String) :
      SchedStepNC s (deleteJob s jid).2

/-- The full step relation: all scheduler operations, including changing
the concurrency cap. -/
inductive SchedStep : SchedState → SchedState → Prop
  | base {s t : SchedState} (h : SchedStepNC s t) : SchedStep s t
  | setMax (s : SchedState) (n : ℕ) : SchedStep s (setMaxConcurrentJobs s n)

/-! ## Claim C10: output-naming scenario D -/

def photoJpg : String := "photo.jpg"

def scenarioDEO : ExportOptions :=
  { format := "jpeg", quality := some 90, width := none, height := none,
    overwrite := some true,
    fileNaming := some { prefixStr := some ("edit_"), suffix := none, includeIndex := some true } }

def scenarioDJob : BatchJob :=
  { id := "d", name := "scenario-d", inputFiles := [photoJpg],
    outputDirectory := "out", adjustments := identityAdjustments,
    exportOptions := scenarioDEO, status := JobStatus.pending, progress := 0,
    errors := [], processedFiles := 0, totalFiles := 1 }

/-- Claim C10: with fileNaming prefix `edit_`, includeIndex true, input
`photo.jpg` at index 0 and export format `jpeg`, the output-filename
generator returns `edit_photo_001.jpg`. -/
theorem claim10_scenarioD :
    generateOutputFilename photoJpg scenarioDJob 0 = "edit_photo_001.jpg" := by
  decide

/-! ## Claim C5: processed-counter versus export success

`processFile` (line 191) calls `exportPhoto` on the *original* input file
without passing the adjustments, and discards its boolean result; since
`exportPhoto` reports every failure by returning `false` instead of
throwing, a failed export never reaches the per-file catch in
`processJob`, and the counter is incremented anyway.  Witnessing input: a
job whose export format is unsupported (`bmp`), so the export provably
fails while the job completes with `processedFiles = 1` and no errors.
The source's own `PhotoProcessor.batchProcess` checks this boolean
(`if (success)`), showing the dropped check is a slip. -/

def bmpEO : ExportOptions :=
  { format := "bmp", quality := some 90, width := none, height := none,
    overwrite := some true, fileNaming := none }

def bmpJob : BatchJob :=
  { id := "b", name := "bmp-export", inputFiles := [photoJpg],
    outputDirectory := "out", adjustments := identityAdjustments,
    exportOptions := bmpEO, status := JobStatus.pending, progress := 0,
    errors := [], processedFiles := 0, totalFiles := 1 }

def bmpEnv : ℕ → FileEnv :=
  fun _ => { inputExists := true, outputExists := false,
             pipelineResult := Except.ok (), writeOk := true }

/-- Claim C5 (code bug): on a file whose export fails — here because the
export format `bmp` is unsupported, so `exportPhoto` returns `false` —
`processJob` still counts the file as processed and completes the job
with no recorded error, because `processFile` ignores `exportPhoto`'s
boolean result. -/
theorem claim5_export_failure_counted :
    exportPhoto bmpEO none (Except.ok ()) true = false
      ∧ (processJob bmpJob bmpEnv).processedFiles = 1
      ∧ (processJob bmpJob bmpEnv).errors = []
      ∧ (processJob bmpJob bmpEnv).status = JobStatus.completed := by
  refine ⟨by decide, by decide, by decide, by decide⟩

/-! ## Claim C1: per-file error isolation and the error-entry format -/

def missingJpg : String := "missing.jpg"

def missJob : BatchJob :=
  { id := "m", name := "missing-input", inputFiles := [missingJpg],
    outputDirectory := "out", adjustments := identityAdjustments,
    exportOptions := bmpEO, status := JobStatus.pending, progress := 0,
    errors := [], processedFiles := 0, totalFiles := 1 }

def missEnv : ℕ → FileEnv :=
  fun _ => { inputExists := false, outputExists := false,
             pipelineResult := Except.ok (), writeOk := true }

def actualMissEntry : String := "Failed to process missing.jpg: Input file does not exist"

def claimedMissEntry : String := "missing.jpg: Input file does not exist"

/-- Claim C1 (counterexample to the stated entry format): processing a
job whose single input file is missing records the entry
`Failed to process missing.jpg: Input file does not exist`, which is not
the claimed form `<filename>: <message>` (that would be
`missing.jpg: Input file does not exist`). -/
theorem claim1_counterexample :
    (processJob missJob missEnv).errors = [actualMissEntry]
      ∧ actualMissEntry ≠ claimedMissEntry := by
  refine ⟨by decide, by decide⟩

/-! ## Characterising the per-file loop

The outcome of each file of a job depends only on that file's own
environment (and the job's constant overwrite option) — not on the
outcome of any earlier file.  `fileOutcome` computes that single-file
outcome; `outcomeList` maps it over the whole input list.  The
characterisation theorem below equates `processJob`'s error list and
processed count with these per-file maps, which is exactly per-file
failure isolation: every file contributes its own outcome, independent of
the others, and no exception escapes the loop. -/

def fileOutcome (ov : Bool) (e : FileEnv) : Option String :=
  if e.inputExists = false then some msgInputMissing
  else if e.outputExists = true ∧ ov = false then some msgOutputExists
  else
    match e.pipelineResult with
    | Except.error m => some m
    | Except.ok _ => none

theorem processFile_eq_fileOutcome (job : BatchJob) (f : String) (i : ℕ) (e : FileEnv) :
    processFile job f i e =
      (match fileOutcome (job.exportOptions.overwrite.getD false) e with
       | some m => Except.error m
       | none => Except.ok ()) := by
  rcases e with ⟨ie, oe, pr, wo⟩
  by_cases hov : job.exportOptions.overwrite.getD false = false <;>
    cases ie <;> cases oe <;> cases pr <;>
      simp [processFile, fileOutcome, hov]

def outcomeList (ov : Bool) (env : ℕ → FileEnv) : ℕ → List String → List (String × Option String)
  | _, [] => []
  | i, f :: rest => (f, fileOutcome ov (env i)) :: outcomeList ov env (i + 1) rest

def specErrors (l : List (String × Option String)) : List String :=
  l.filterMap (fun p => p.2.map (fun m => mkFileError p.1 m))

def specOks (l : List (String × Option String)) : ℕ :=
  (l.filter (fun p => p.2.isNone)).length

theorem specErrors_specOks_length (l : List (String × Option String)) :
    (specErrors l).length + specOks l = l.length := by
  induction l with
  | nil => simp [specErrors, specOks]
  | cons p rest ih =>
    cases hp : p.2 <;>
      simp [specErrors, specOks, List.filterMap_cons, List.filter_cons, hp] at * <;>
        omega

theorem outcomeList_length (ov : Bool) (env : ℕ → FileEnv) :
    ∀ (i : ℕ) (files : List String), (outcomeList ov env i files).length = files.length := by
  intro i files
  induction files generalizing i with
  | nil => rfl
  | cons f rest ih => simp [outcomeList, ih]

theorem runFilesAux_spec (env : ℕ → FileEnv) :
    ∀ (files : List String) (i : ℕ) (job : BatchJob),
      (runFilesAux env files i job).errors
          = job.errors
            ++ specErrors (outcomeList (job.exportOptions.overwrite.getD false) env i files)
        ∧ (runFilesAux env files i job).processedFiles
            = job.processedFiles
              + specOks (outcomeList (job.exportOptions.overwrite.getD false) env i files)
        ∧ (runFilesAux env files i job).status = job.status
        ∧ (runFilesAux env files i job).totalFiles = job.totalFiles := by
  intro files
  induction files with
  | nil =>
    intro i job
    simp [runFilesAux, outcomeList, specErrors, specOks]
  | cons f rest ih =>
    intro i job
    have hpf := processFile_eq_fileOutcome job f i (env i)
    cases ho : fileOutcome (job.exportOptions.overwrite.getD false) (env i) with
    | none =>
      rw [ho] at hpf
      have h2 := ih (i + 1)
        { job with processedFiles := job.processedFiles + 1,
                   progress := jsRound100 (i + 1) job.totalFiles }
      obtain ⟨he, hp, hs, ht⟩ := h2
      simp only [runFilesAux, hpf]
      simp only at he hp hs ht
      refine ⟨?_, ?_, ?_, ?_⟩
      · rw [he]; simp [outcomeList, ho, specErrors]
      · rw [hp]; simp [outcomeList, ho, specOks, List.filter_cons]; omega
      · rw [hs]
      · rw [ht]
    | some m =>
      rw [ho] at hpf
      have h2 := ih (i + 1)
        { job with errors := job.errors ++ [mkFileError f m],
                   progress := jsRound100 (i + 1) job.totalFiles }
      obtain ⟨he, hp, hs, ht⟩ := h2
      simp only [runFilesAux, hpf]
      simp only at he hp hs ht
      refine ⟨?_, ?_, ?_, ?_⟩
      · rw [he]; simp [outcomeList, ho, specErrors]
      · rw [hp]; simp [outcomeList, ho, specOks, List.filter_cons]
      · rw [hs]
      · rw [ht]

theorem processJob_spec (job : BatchJob) (env : ℕ → FileEnv) :
    (processJob job env).errors
        = specErrors (outcomeList (job.exportOptions.overwrite.getD false) env 0 job.inputFiles)
      ∧ (processJob job env).processedFiles
          = specOks (outcomeList (job.exportOptions.overwrite.getD false) env 0 job.inputFiles)
      ∧ (processJob job env).totalFiles = job.totalFiles := by
  obtain ⟨he, hp, hs, ht⟩ := runFilesAux_spec env (startJob job).inputFiles 0 (startJob job)
  simp only [startJob] at he hp hs ht
  refine ⟨?_, ?_, ?_⟩ <;>
    simp only [processJob, finishJob, startJob] <;>
      simp [he, hp, ht]

theorem finishJob_status_iff (job : BatchJob) (env : ℕ → FileEnv) :
    ((finishJob job env).status = JobStatus.completed ↔ (finishJob job env).errors = [])
      ∧ ((finishJob job env).status = JobStatus.completed
          ∨ (finishJob job env).status = JobStatus.failed) := by
  simp only [finishJob]
  cases hje : (runFilesAux env job.inputFiles 0 job).errors <;> simp [hje]

/-- Claim C1 (amended): every exception thrown while processing a single
file is caught and recorded, and all files are still attempted in order —
`processJob`'s error list is exactly the per-file outcome map over the
whole input list (each entry of the form
`Failed to process <basename(file)>: <message>`, as `mkFileError`
builds), its processed count is the number of per-file successes, and the
two together account for every input file.  No exception escapes the job:
`processJob` is total. -/
theorem claim1_amended (job : BatchJob) (env : ℕ → FileEnv) :
    (processJob job env).errors
        = specErrors (outcomeList (job.exportOptions.overwrite.getD false) env 0 job.inputFiles)
      ∧ (processJob job env).processedFiles + ((processJob job env).errors).length
          = job.inputFiles.length := by
  obtain ⟨he, hp, _⟩ := processJob_spec job env
  refine ⟨he, ?_⟩
  rw [he, hp]
  rw [Nat.add_comm]
  rw [specErrors_specOks_length]
  exact outcomeList_length _ _ _ _

/-- Claim C2 (amended): the accounting invariant
`processedFiles + errors.length = totalFiles` holds for every job that
reaches its terminal state by running to completion through `processJob`
(the normal path), given the creation-time fact
`totalFiles = inputFiles.length`; and the state `processJob` leaves the
job in is terminal. -/
theorem claim2_amended (job : BatchJob) (env : ℕ → FileEnv)
    (h : job.totalFiles = job.inputFiles.length) :
    (processJob job env).processedFiles + ((processJob job env).errors).length
        = job.totalFiles
      ∧ ((processJob job env).status = JobStatus.completed
          ∨ (processJob job env).status = JobStatus.failed) := by
  obtain ⟨he, hp, _⟩ := processJob_spec job env
  constructor
  · rw [he, hp, Nat.add_comm, specErrors_specOks_length, outcomeList_length, h]
  · exact (finishJob_status_iff (startJob job) env).2

def jid1 : String := "j1"

def fileA : String := "a.jpg"

def fileB : String := "b.jpg"

def plainEO : ExportOptions :=
  { format := "jpeg", quality := some 90, width := none, height := none,
    overwrite := some true, fileNaming := none }

def cxS1 : SchedState :=
  (createBatchJob initState jid1 jid1 [fileA, fileB] jid1 identityAdjustments plainEO).2

def cxS2 : SchedState := (cancelJob cxS1 jid1).2

/-- Claim C2 (counterexample to the all-paths form): a two-file job
created and then cancelled while pending reaches the terminal state
`failed` with `processedFiles + errors.length = 0 + 1 = 1`, but
`totalFiles = 2` — cancellation records a single cancellation error
regardless of the file count, so the invariant fails on that path.  The
state is reachable from a fresh scheduler by `create` then `cancel`. -/
theorem claim2_counterexample :
    Relation.ReflTransGen SchedStep initState cxS2
      ∧ (lookupJob cxS2 jid1).map
          (fun j => (j.status, j.processedFiles + j.errors.length, j.totalFiles))
          = some (JobStatus.failed, 1, 2) := by
  constructor
  · exact Relation.ReflTransGen.tail
      (Relation.ReflTransGen.tail Relation.ReflTransGen.refl
        (SchedStep.base
          (SchedStepNC.create initState jid1 jid1 [fileA, fileB] jid1
            identityAdjustments plainEO)))
      (SchedStep.base (SchedStepNC.cancel cxS1 jid1))
  · decide

def wit2Job : BatchJob :=
  { id := "w2", name := "w2", inputFiles := [fileA, fileB],
    outputDirectory := "out", adjustments := identityAdjustments,
    exportOptions := plainEO, status := JobStatus.pending, progress := 0,
    errors := [], processedFiles := 0, totalFiles := 2 }

def wit2Env : ℕ → FileEnv :=
  fun i => { inputExists := i ≠ 1, outputExists := false,
             pipelineResult := Except.ok (), writeOk := true }

theorem claim2_witness :
    (processJob wit2Job wit2Env).processedFiles
          + ((processJob wit2Job wit2Env).errors).length = wit2Job.totalFiles
      ∧ ((processJob wit2Job wit2Env).status = JobStatus.completed
          ∨ (processJob wit2Job wit2Env).status = JobStatus.failed) :=
  claim2_amended wit2Job wit2Env (by decide)

/-! ## Claims C7 and C8: queueJob and cancelJob -/

/-- Claim C7: `queueJob` returns false on a missing or non-pending job
without touching the state; when the output directory is missing and
cannot be created, the job is immediately failed with the error recorded
(its processed count untouched, hence still 0 for a pending job) and the
queue is unchanged — the job never enters it; otherwise the job id is
appended to the FIFO queue (admission itself is the `admit` step of
`SchedStepNC`, triggered by the source's `processQueue()` call). -/
theorem claim7_queueJob (s : SchedState) (jid : String) (dirExists : Bool)
    (mk : Option String) :
    (lookupJob s jid = none → queueJob s jid dirExists mk = (false, s))
      ∧ (∀ job, lookupJob s jid = some job → job.status ≠ JobStatus.pending →
          queueJob s jid dirExists mk = (false, s))
      ∧ (∀ job m, lookupJob s jid = some job → job.status = JobStatus.pending →
          dirExists = false → mk = some m →
          (queueJob s jid dirExists mk).1 = false
            ∧ (queueJob s jid dirExists mk).2.jobQueue = s.jobQueue
            ∧ (queueJob s jid dirExists mk).2.jobs = updateJob s.jobs jid (dirFailJob job m)
            ∧ (dirFailJob job m).status = JobStatus.failed
            ∧ (dirFailJob job m).errors = job.errors ++ [dirFailMsg m]
            ∧ (dirFailJob job m).processedFiles = job.processedFiles)
      ∧ (∀ job, lookupJob s jid = some job → job.status = JobStatus.pending →
          (dirExists = true ∨ mk = none) →
          queueJob s jid dirExists mk = (true, { s with jobQueue := s.jobQueue ++ [jid] })) := by
  refine ⟨?_, ?_, ?_, ?_⟩
  · intro h; simp [queueJob, h]
  · intro job h hs; simp [queueJob, h, hs]
  · intro job m h hs hd hm; simp [queueJob, h, hs, hd, hm, dirFailJob]
  · intro job h hs hor
    rcases hor with hd | hm
    · simp [queueJob, h, hs, hd]
    · cases hd2 : dirExists
      · simp [queueJob, h, hs, hd2, hm]
      · simp [queueJob, h, hs, hd2]

/-- Claim C8: `cancelJob` on a pending job returns true, erases the job
id from the admission queue, and marks the job failed with the
cancellation error appended; on a missing job or a job in any other
status (in particular `processing`) it returns false and the state is
entirely unchanged. -/
theorem claim8_cancelJob (s : SchedState) (jid : String) :
    (lookupJob s jid = none → cancelJob s jid = (false, s))
      ∧ (∀ job, lookupJob s jid = some job → job.status ≠ JobStatus.pending →
          cancelJob s jid = (false, s))
      ∧ (∀ job, lookupJob s jid = some job → job.status = JobStatus.pending →
          (cancelJob s jid).1 = true
            ∧ (cancelJob s jid).2.jobQueue = s.jobQueue.erase jid
            ∧ (cancelJob s jid).2.jobs = updateJob s.jobs jid (cancelledJob job)
            ∧ (cancelJob s jid).2.maxConcurrentJobs = s.maxConcurrentJobs
            ∧ (cancelledJob job).status = JobStatus.failed
            ∧ (cancelledJob job).errors = job.errors ++ [cancelMsg]) := by
  refine ⟨?_, ?_, ?_⟩
  · intro h; simp [cancelJob, h]
  · intro job h hs; simp [cancelJob, h, hs]
  · intro job h hs; simp [cancelJob, h, hs, cancelledJob]

def widA : String := "jobA"

def widB : String := "jobB"

def wPendJob : BatchJob :=
  { id := widA, name := widA, inputFiles := [fileA], outputDirectory := "out",
    adjustments := identityAdjustments, exportOptions := plainEO,
    status := JobStatus.pending, progress := 0, errors := [],
    processedFiles := 0, totalFiles := 1 }

def wProcJob : BatchJob :=
  { id := widB, name := widB, inputFiles := [fileB], outputDirectory := "out",
    adjustments := identityAdjustments, exportOptions := plainEO,
    status := JobStatus.processing, progress := 0, errors := [],
    processedFiles := 0, totalFiles := 1 }

def s8 : SchedState :=
  { jobs := [(widA, wPendJob), (widB, wProcJob)], jobQueue := [widA],
    maxConcurrentJobs := 3 }

def ioErr : String := "EACCES: permission denied"

theorem claim7_witness :
    queueJob s8 jid1 true none = (false, s8)
      ∧ (queueJob s8 widA false (some ioErr)).1 = false
      ∧ queueJob s8 widA true none = (true, { s8 with jobQueue := s8.jobQueue ++ [widA] }) :=
  ⟨(claim7_queueJob s8 jid1 true none).1 (by decide),
   ((claim7_queueJob s8 widA false (some ioErr)).2.2.1 wPendJob ioErr (by decide) (by decide)
      rfl rfl).1,
   (claim7_queueJob s8 widA true none).2.2.2 wPendJob (by decide) (by decide) (Or.inl rfl)⟩

theorem claim8_witness :
    (cancelJob s8 widA).1 = true ∧ cancelJob s8 widB = (false, s8) :=
  ⟨((claim8_cancelJob s8 widA).2.2 wPendJob (by decide) (by decide)).1,
   (claim8_cancelJob s8 widB).2.1 wProcJob (by decide) (by decide)⟩

/-! ## Claim C3: the status rule as a reachability invariant -/

theorem mem_updateJob {jobs : List (String × BatchJob)} {jid : String} {j : BatchJob}
    {p : String × BatchJob} (hp : p ∈ updateJob jobs jid j) :
    p ∈ jobs ∨ p = (jid, j) := by
  simp only [updateJob, List.mem_map] at hp
  obtain ⟨q, hq, rfl⟩ := hp
  by_cases h : q.1 = jid
  · right; simp [h]
  · left; simpa [h] using hq

theorem mem_addJob {jobs : List (String × BatchJob)} {jid : String} {j : BatchJob}
    {p : String × BatchJob} (hp : p ∈ addJob jobs jid j) :
    p ∈ jobs ∨ p = (jid, j) := by
  simp only [addJob] at hp
  split at hp
  · exact mem_updateJob hp
  · rcases List.mem_append.1 hp with h | h
    · left; exact h
    · right; simpa using h

/-- The status rule: every terminal job is `completed` exactly when its
error list is empty. -/
def statusRuleOk (s : SchedState) : Prop :=
  ∀ p ∈ s.jobs, (p.2.status = JobStatus.completed ∨ p.2.status = JobStatus.failed) →
    (p.2.status = JobStatus.completed ↔ p.2.errors = [])

theorem schedStep_statusRule {s t : SchedState} (hst : SchedStep s t)
    (hs : statusRuleOk s) : statusRuleOk t := by
  cases hst with
  | setMax n => exact hs
  | base h =>
    cases h with
    | create newId name files outDir adj eo =>
      intro p hp hterm
      simp only [createBatchJob] at hp
      rcases mem_addJob hp with h | h
      · exact hs p h hterm
      · subst h; simp at hterm
    | queue jid dirExists mk =>
      intro p hp hterm
      rcases hlu : lookupJob s jid with _ | job
      · simp [queueJob, hlu] at hp; exact hs p hp hterm
      · by_cases hpend : job.status = JobStatus.pending
        · cases hd : dirExists
          · cases hm : mk with
            | none =>
              simp [queueJob, hlu, hpend, hd, hm] at hp
              exact hs p hp hterm
            | some m =>
              simp [queueJob, hlu, hpend, hd, hm] at hp
              rcases mem_updateJob hp with h | h
              · exact hs p h hterm
              · subst h; simp [dirFailJob]
          · simp [queueJob, hlu, hpend, hd] at hp
            exact hs p hp hterm
        · simp [queueJob, hlu, hpend] at hp
          exact hs p hp hterm
    | admitOne pre post jid job rest hq hj hpend hc =>
      intro p hp hterm
      rcases List.mem_append.1 hp with h | h
      · exact hs p (by rw [hj]; exact List.mem_append.2 (Or.inl h)) hterm
      · rcases List.mem_cons.1 h with h2 | h2
        · subst h2; simp [startJob] at hterm
        · exact hs p
            (by rw [hj]; exact List.mem_append.2 (Or.inr (List.mem_cons.2 (Or.inr h2)))) hterm
    | admitDrop jid rest hq hc hnp => exact hs
    | finish pre post jid job env hj hproc =>
      intro p hp hterm
      rcases List.mem_append.1 hp with h | h
      · exact hs p (by rw [hj]; exact List.mem_append.2 (Or.inl h)) hterm
      · rcases List.mem_cons.1 h with h2 | h2
        · subst h2; exact (finishJob_status_iff job env).1
        · exact hs p
            (by rw [hj]; exact List.mem_append.2 (Or.inr (List.mem_cons.2 (Or.inr h2)))) hterm
    | cancel jid =>
      intro p hp hterm
      rcases hlu : lookupJob s jid with _ | job
      · simp [cancelJob, hlu] at hp; exact hs p hp hterm
      · by_cases hpend : job.status = JobStatus.pending
        · simp [cancelJob, hlu, hpend] at hp
          rcases mem_updateJob hp with h | h
          · exact hs p h hterm
          · subst h; simp [cancelledJob]
        · simp [cancelJob, hlu, hpend] at hp
          exact hs p hp hterm
    | del jid =>
      intro p hp hterm
      rcases hlu : lookupJob s jid with _ | job
      · simp [deleteJob, hlu] at hp; exact hs p hp hterm
      · by_cases hterm2 : job.status = JobStatus.processing ∨ job.status = JobStatus.pending
        · simp [deleteJob, hlu, hterm2] at hp
          exact hs p hp hterm
        · simp [deleteJob, hlu, hterm2] at hp
          exact hs p hp.1 hterm

/-- Claim C3: in every scheduler state reachable from a fresh
`BatchProcessor`, every job in a terminal state is `completed` if and
only if its error list is empty (and `failed` otherwise) — there is no
other terminal status. -/
theorem claim3_status_rule (s : SchedState)
    (hreach : Relation.ReflTransGen SchedStep initState s) :
    ∀ p ∈ s.jobs, (p.2.status = JobStatus.completed ∨ p.2.status = JobStatus.failed) →
      (p.2.status = JobStatus.completed ↔ p.2.errors = []) := by
  induction hreach with
  | refl => intro p hp; simp [initState] at hp
  | tail hr hstep ih => exact schedStep_statusRule hstep ih

def cxJob2 : BatchJob :=
  cancelledJob (createBatchJob initState jid1 jid1 [fileA, fileB] jid1
    identityAdjustments plainEO).1

theorem claim3_witness :
    cxJob2.status = JobStatus.completed ↔ cxJob2.errors = [] :=
  claim3_status_rule cxS2
    (Relation.ReflTransGen.tail
      (Relation.ReflTransGen.tail Relation.ReflTransGen.refl
        (SchedStep.base
          (SchedStepNC.create initState jid1 jid1 [fileA, fileB] jid1
            identityAdjustments plainEO)))
      (SchedStep.base (SchedStepNC.cancel cxS1 jid1)))
    (jid1, cxJob2) (by decide) (Or.inr (by decide))

/-! ## Claim C9: the admission cap -/

theorem processingCount_append (l1 l2 : List (String × BatchJob)) :
    processingCount (l1 ++ l2) = processingCount l1 + processingCount l2 := by
  simp [processingCount, List.filter_append]

theorem processingCount_cons (p : String × BatchJob) (l : List (String × BatchJob)) :
    processingCount (p :: l)
      = (if p.2.status = JobStatus.processing then 1 else 0) + processingCount l := by
  by_cases h : p.2.status = JobStatus.processing <;>
    simp [processingCount, List.filter_cons, h, Nat.add_comm]

theorem processingCount_updateJob_le (jobs : List (String × BatchJob)) (jid : String)
    (j : BatchJob) (hj : j.status ≠ JobStatus.processing) :
    processingCount (updateJob jobs jid j) ≤ processingCount jobs := by
  induction jobs with
  | nil => simp [updateJob, processingCount]
  | cons p rest ih =>
    simp only [updateJob, List.map_cons]
    rw [processingCount_cons, processingCount_cons]
    by_cases h : p.1 = jid
    · simp only [h, if_pos]
      simp only [updateJob] at ih
      simp [hj]
      exact le_trans ih (Nat.le_add_left _ _)
    · simp only [h, if_neg, ite_false]
      simp only [updateJob] at ih
      exact Nat.add_le_add_left ih _

theorem processingCount_filter_le (jobs : List (String × BatchJob))
    (q : String × BatchJob → Bool) :
    processingCount (jobs.filter q) ≤ processingCount jobs := by
  have h1 : List.Sublist (jobs.filter q) jobs := List.filter_sublist jobs
  exact (h1.filter _).length_le

theorem processingCount_addJob_le (jobs : List (String × BatchJob)) (jid : String)
    (j : BatchJob) (hj : j.status ≠ JobStatus.processing) :
    processingCount (addJob jobs jid j) ≤ processingCount jobs := by
  simp only [addJob]
  split
  · exact processingCount_updateJob_le jobs jid j hj
  · rw [processingCount_append, processingCount_cons]
    simp [processingCount, hj]

theorem finishJob_not_processing (job : BatchJob) (env : ℕ → FileEnv) :
    (finishJob job env).status ≠ JobStatus.processing := by
  rcases (finishJob_status_iff job env).2 with h | h <;> rw [h] <;> simp

theorem schedStepNC_cap {s t : SchedState} (hst : SchedStepNC s t) :
    t.maxConcurrentJobs = s.maxConcurrentJobs
      ∧ (processingCount s.jobs ≤ s.maxConcurrentJobs →
          processingCount t.jobs ≤ s.maxConcurrentJobs) := by
  cases hst with
  | create newId name files outDir adj eo =>
    refine ⟨rfl, fun hle => ?_⟩
    exact le_trans (processingCount_addJob_le s.jobs newId _ (by simp)) hle
  | queue jid dirExists mk =>
    rcases hlu : lookupJob s jid with _ | job
    · simp [queueJob, hlu]
    · by_cases hpend : job.status = JobStatus.pending
      · cases hd : dirExists
        · cases hm : mk with
          | none => simp [queueJob, hlu, hpend, hd, hm]
          | some m =>
            simp only [queueJob, hlu, hpend, hd, hm]
            refine ⟨rfl, fun hle => ?_⟩
            exact le_trans
              (processingCount_updateJob_le s.jobs jid _ (by simp [dirFailJob])) hle
        · simp [queueJob, hlu, hpend]
      · simp [queueJob, hlu, hpend]
  | admitOne pre post jid job rest hq hj hpend hc =>
    refine ⟨rfl, fun _ => ?_⟩
    rw [hj] at hc
    simp only [processingCount_append, processingCount_cons] at hc
    simp [hpend] at hc
    show processingCount (pre ++ (jid, startJob job) :: post) ≤ s.maxConcurrentJobs
    simp only [processingCount_append, processingCount_cons]
    simp [startJob]
    omega
  | admitDrop jid rest hq hc hnp => exact ⟨rfl, fun hle => hle⟩
  | finish pre post jid job env hj hproc =>
    refine ⟨rfl, fun hle => ?_⟩
    rw [hj] at hle
    simp only [processingCount_append, processingCount_cons] at hle
    simp [hproc] at hle
    show processingCount (pre ++ (jid, finishJob job env) :: post) ≤ s.maxConcurrentJobs
    simp only [processingCount_append, processingCount_cons]
    simp [finishJob_not_processing job env]
    omega
  | cancel jid =>
    rcases hlu : lookupJob s jid with _ | job
    · simp [cancelJob, hlu]
    · by_cases hpend : job.status = JobStatus.pending
      · simp only [cancelJob, hlu, hpend]
        refine ⟨rfl, fun hle => ?_⟩
        exact le_trans
          (processingCount_updateJob_le s.jobs jid _ (by simp [cancelledJob])) hle
      · simp [cancelJob, hlu, hpend]
  | del jid =>
    rcases hlu : lookupJob s jid with _ | job
    · simp [deleteJob, hlu]
    · by_cases hterm2 : job.status = JobStatus.processing ∨ job.status = JobStatus.pending
      · simp [deleteJob, hlu, hterm2]
      · simp only [deleteJob, hlu, hterm2]
        refine ⟨rfl, fun hle => ?_⟩
        exact le_trans (processingCount_filter_le s.jobs _) hle

/-- Claim C9: with the concurrency cap fixed at `K`, however many jobs
are queued, in every state reachable by scheduler steps (which never
change the cap) the number of jobs in status `processing` stays at most
`K`: the `admit` step pops only the FIFO head of the queue and only under
the guard `processingCount < maxConcurrentJobs`.  And
`setMaxConcurrentJobs` clamps its argument to `[1, 10]`. -/
theorem claim9_admission_cap :
    (∀ (K : ℕ) (s t : SchedState), s.maxConcurrentJobs = K →
        processingCount s.jobs ≤ K → Relation.ReflTransGen SchedStepNC s t →
        processingCount t.jobs ≤ K ∧ t.maxConcurrentJobs = K)
      ∧ (∀ (s : SchedState) (n : ℕ),
          1 ≤ (setMaxConcurrentJobs s n).maxConcurrentJobs
            ∧ (setMaxConcurrentJobs s n).maxConcurrentJobs ≤ 10) := by
  constructor
  · intro K s t hK hle hrtg
    induction hrtg with
    | refl => exact ⟨hle, hK⟩
    | tail hr hstep ih =>
      obtain ⟨ih1, ih2⟩ := ih
      obtain ⟨hcap, hcount⟩ := schedStepNC_cap hstep
      rw [ih2] at hcap hcount
      exact ⟨hcount ih1, hcap⟩
  · intro s n
    simp only [setMaxConcurrentJobs]
    omega

theorem claim9_witness :
    processingCount initState.jobs ≤ 3
      ∧ 1 ≤ (setMaxConcurrentJobs initState 99).maxConcurrentJobs :=
  ⟨(claim9_admission_cap.1 3 initState initState rfl (by decide)
      Relation.ReflTransGen.refl).1,
   (claim9_admission_cap.2 initState 99).1⟩

/-! ## Claim C6: snapshot semantics of createBatchJob

JS objects are heap references, and `{...adjustments}` copies only the
top-level fields of the caller's object into a fresh object: a
reference-valued field (an optional sub-record such as `toneCurve`) keeps
pointing at the same nested object.  This model makes the references
explicit: `AdjObj` is an adjustments object whose `toneCurve` field is an
address into a heap of tone-curve objects (the other optional sub-records
— colorGrading, HSL, splitToning, lensCorrections — are references of
exactly the same kind; one representative captures the semantics).
`createJobAdj` is the `adjustments: { ...adjustments }` snapshot of
`createBatchJob` line 58: it allocates a fresh object whose fields are
copied from the caller's object. -/

structure AdjObj where
  exposure : ℚ
  contrast : ℚ
  highlights : ℚ
  shadows : ℚ
  whites : ℚ
  blacks : ℚ
  temperature : ℚ
  tint : ℚ
  vibrance : ℚ
  saturation : ℚ
  sharpening : ℚ
  noiseReduction : ℚ
  clarity : ℚ
  dehaze : ℚ
  vignette : Option ℚ
  toneCurve : Option ℕ
  deriving DecidableEq

structure RefHeap where
  adjObjs : List AdjObj
  toneCurves : List ToneCurve
  deriving DecidableEq

/-- `{ ...adjustments }` at `createBatchJob` line 58: allocate a fresh
adjustments object (at address `adjObjs.length`) whose fields — including
the `toneCurve` reference — are copied from the caller's object. -/
def createJobAdj (h : RefHeap) (callerAddr : ℕ) : RefHeap × ℕ :=
  match h.adjObjs.get? callerAddr with
  | some a => ({ h with adjObjs := h.adjObjs ++ [a] }, h.adjObjs.length)
  | none => (h, callerAddr)

/-- The caller mutates a top-level scalar of its own adjustments object
(`adjustments.exposure = v`). -/
def setAdjExposure (h : RefHeap) (addr : ℕ) (v : ℚ) : RefHeap :=
  match h.adjObjs.get? addr with
  | some a => { h with adjObjs := h.adjObjs.set addr { a with exposure := v } }
  | none => h

/-- The caller mutates a field of the nested tone-curve object
(`adjustments.toneCurve.highlights = v`). -/
def setToneCurveHighlights (h : RefHeap) (tcAddr : ℕ) (v : ℚ) : RefHeap :=
  match h.toneCurves.get? tcAddr with
  | some tc => { h with toneCurves := h.toneCurves.set tcAddr { tc with highlights := v } }
  | none => h

/-- The tone curve an adjustments object at `addr` currently refers to. -/
def derefToneCurveAt (h : RefHeap) (addr : ℕ) : Option ToneCurve :=
  (h.adjObjs.get? addr).bind (fun a => a.toneCurve.bind (fun t => h.toneCurves.get? t))

theorem get?_some_lt {α : Type} {l : List α} {n : ℕ} {a : α} (h : l.get? n = some a) :
    n < l.length := by
  by_contra hn
  rw [List.get?_eq_none.2 (by omega)] at h
  cases h

/-- Claim C6 (amended): `createBatchJob` snapshots the top level of the
caller's AdjustmentSet — the job's adjustments object is a fresh object
holding the caller's current field values, and mutating a top-level
scalar of the caller's object afterwards leaves the job's object
unchanged — but an optional nested sub-record such as the tone curve is
copied by reference, so mutating the caller's nested sub-record after
job creation is visible through the job's stored adjustments. -/
theorem claim6_amended (h : RefHeap) (callerAddr : ℕ) (a : AdjObj)
    (hget : h.adjObjs.get? callerAddr = some a) :
    (createJobAdj h callerAddr).2 = h.adjObjs.length
      ∧ (createJobAdj h callerAddr).1.adjObjs.get? h.adjObjs.length = some a
      ∧ (∀ v : ℚ,
          (setAdjExposure (createJobAdj h callerAddr).1 callerAddr v).adjObjs.get?
              h.adjObjs.length = some a)
      ∧ (∀ (t : ℕ) (v : ℚ) (tc : ToneCurve),
          a.toneCurve = some t → h.toneCurves.get? t = some tc →
          derefToneCurveAt (setToneCurveHighlights (createJobAdj h callerAddr).1 t v)
              h.adjObjs.length
            = some { tc with highlights := v }) := by
  have hlt : callerAddr < h.adjObjs.length := get?_some_lt hget
  have hget2 : h.adjObjs[callerAddr]? = some a := by
    simpa [List.get?_eq_getElem?] using hget
  have hnew : (h.adjObjs ++ [a])[h.adjObjs.length]? = some a :=
    List.getElem?_concat_length h.adjObjs a
  have hcaller : (h.adjObjs ++ [a])[callerAddr]? = some a := by
    rw [List.getElem?_append_left hlt]; exact hget2
  refine ⟨?_, ?_, ?_, ?_⟩
  · simp [createJobAdj, hget2]
  · simp only [createJobAdj, List.get?_eq_getElem?, hget2]
    exact hnew
  · intro v
    simp only [createJobAdj, setAdjExposure, List.get?_eq_getElem?, hget2, hcaller]
    rw [List.getElem?_set_ne (by omega)]
    exact hnew
  · intro t v tc htc hheap
    have htlt : t < h.toneCurves.length := get?_some_lt hheap
    have hheap2 : h.toneCurves[t]? = some tc := by
      simpa [List.get?_eq_getElem?] using hheap
    simp only [createJobAdj, setToneCurveHighlights, derefToneCurveAt,
      List.get?_eq_getElem?, hget2, hheap2, hnew]
    simp [htc, List.getElem?_set_eq_of_lt _ htlt]

def wTC0 : ToneCurve :=
  { highlights := 0, lights := 0, darks := 0, shadows := 0,
    parametricHighlights := 0, parametricLights := 0,
    parametricDarks := 0, parametricShadows := 0 }

def wAdj0 : AdjObj :=
  { exposure := 0, contrast := 0, highlights := 0, shadows := 0, whites := 0,
    blacks := 0, temperature := 0, tint := 0, vibrance := 0, saturation := 0,
    sharpening := 0, noiseReduction := 0, clarity := 0, dehaze := 0,
    vignette := none, toneCurve := some 0 }

def wHeap : RefHeap := { adjObjs := [wAdj0], toneCurves := [wTC0] }

/-- Claim C6 (counterexample): with a caller AdjustmentSet holding a
nested tone curve, the job snapshot created by the object spread refers
to the *same* tone-curve object: mutating the caller's
`toneCurve.highlights` to 50 after job creation changes the tone curve
seen through the job's stored adjustments from the original to the
mutated one — so mutating a nested sub-record of the caller's set does
affect the created job, contrary to the claim. -/
theorem claim6_counterexample :
    derefToneCurveAt (createJobAdj wHeap 0).1 (createJobAdj wHeap 0).2 = some wTC0
      ∧ derefToneCurveAt (setToneCurveHighlights (createJobAdj wHeap 0).1 0 50)
          (createJobAdj wHeap 0).2 = some ({ wTC0 with highlights := 50 } : ToneCurve)
      ∧ ({ wTC0 with highlights := 50 } : ToneCurve) ≠ wTC0 := by
  refine ⟨by decide, by decide, by decide⟩

theorem claim6_witness :
    (setAdjExposure (createJobAdj wHeap 0).1 0 5).adjObjs.get? 1 = some wAdj0
      ∧ derefToneCurveAt (setToneCurveHighlights (createJobAdj wHeap 0).1 0 50) 1
          = some ({ wTC0 with highlights := 50 } : ToneCurve) :=
  ⟨(claim6_amended wHeap 0 wAdj0 rfl).2.2.1 5,
   (claim6_amended wHeap 0 wAdj0 rfl).2.2.2 0 50 wTC0 rfl rfl⟩
